import Mathlib

/-!
Verification of the buwoong-i documentation/snapshot tool.

The development shallowly embeds the program's four Python source files:
`extension_configs.py` (the static filter policy tables), `file_config.py`
(the resolved filter set), `project_config.py` (run parameters), and
`main.py` (validation, traversal, classification, and markdown rendering).

Modelling conventions:
* Python strings are Lean `String`s; the Python primitives used by the code
  (`str.endswith`, `str.lower`, `in` on a set, `sorted`, lexicographic string
  comparison by code points) are re-implemented below as executable functions
  over the underlying `List Char`, so that every definition evaluates inside
  the kernel.
* Python `set(...)` values are modelled as `List String` with membership
  semantics; only membership tests are ever performed on them, so a list
  that enumerates the same elements is an exact model.
* The filesystem is modelled by `PathEntry` (the entry found at the root
  path: missing, a regular file, or a directory tree) plus a pure content
  oracle `String → Except String String` giving each path's readable content
  or its read error.  `os.walk` with top-down in-place pruning of `dirs`
  becomes the recursive `walkTree`/`walkSubs` pair; `os.walk` yields nothing
  on a missing or non-directory path (`walkPath`).
* Paths are joined with `"/"` (`os.sep`); the root argument plays the role
  of `os.path.abspath(directory)`, and `os.path.relpath`/`os.path.basename`
  are modelled for paths of the shape the traversal actually constructs
  (`root ++ "/" ++ component ++ ...`).  The nesting level that `main.py`
  computes by counting separators in the path suffix is tracked directly as
  the recursion depth, which coincides with that count for the constructed
  paths.
-/

/-! ## Python string primitives, re-implemented executably -/

/-- Python `str.lower` restricted to its behaviour on the characters the
policy tables compare against (ASCII); model of `filename.lower()`. -/
def pyLower (s : String) : String := ⟨s.data.map Char.toLower⟩

/-- Python `str.endswith`: the argument is literally a suffix of the string. -/
def pyEndsWith (s suf : String) : Bool := suf.data.isSuffixOf s.data

/-- Lexicographic comparison of character lists by code point, the order
Python uses to compare strings. -/
def lexLe : List Char → List Char → Bool
  | [], _ => true
  | _ :: _, [] => false
  | a :: as, b :: bs =>
    if a < b then true
    else if b < a then false
    else lexLe as bs

/-- Python string `<=`, used by `sorted` on lists of strings. -/
def pyLe (s t : String) : Bool := lexLe s.data t.data

/-- Insert into a list keeping the elements ordered by `le`. -/
def insertBy {α : Type} (le : α → α → Bool) (x : α) : List α → List α
  | [] => [x]
  | y :: ys => if le y x then y :: insertBy le x ys else x :: y :: ys

/-- Insertion sort by `le`; on strings this computes exactly Python's
`sorted`, since distinct strings are totally ordered and equal strings are
indistinguishable. -/
def sortBy {α : Type} (le : α → α → Bool) : List α → List α
  | [] => []
  | x :: xs => insertBy le x (sortBy le xs)

/-- Model of Python `sorted` on a list of strings. -/
def sortStrings (l : List String) : List String := sortBy pyLe l

/-- A run of `n` spaces; model of `" " * n`. -/
def spaces (n : Nat) : String := ⟨List.replicate n ' '⟩

/-- The final path component; model of `os.path.basename` and of
`pathlib.Path(p).name` for the slash-joined paths the traversal builds. -/
def basename (s : String) : String :=
  ⟨s.data.foldl (fun acc c => if c = '/' then [] else acc ++ [c]) []⟩

/-- Model of `os.path.relpath(p, root)` for a path of the form
`root ++ "/" ++ rest`: the part after the separator. -/
def relpath (p root : String) : String := ⟨p.data.drop (root.data.length + 1)⟩

/-- Model of `os.path.join(dir, f)` with `os.sep = "/"`. -/
def joinPath (dir f : String) : String := dir ++ "/" ++ f

/-! ## `file_config.py` and `extension_configs.py` -/

/-- The resolved filter set (`file_config.py`, `@dataclass FileConfig`).
Each field is a Python `set` of strings, modelled as a list with membership
semantics. -/
structure FileConfig where
  exclude_dirs : List String
  exclude_files : List String
  exclude_extensions : List String
  include_files : List String

/-- One entry of the `EXTENSION_CONFIGS` table: the four string collections
of a category policy. -/
structure ExtensionConfig where
  exclude_dir : List String
  exclude_file : List String
  exclude_extension : List String
  include_file : List String

/-- The `"common"` entry of `EXTENSION_CONFIGS`. -/
def commonConfig : ExtensionConfig :=
  ⟨[".vscode", ".idea", ".githook", ".aider.tags.cache.v3", ".git", ".githooks"],
   [".gitignore", ".gitkeep"],
   [],
   ["makefile"]⟩

/-- The `"python"` entry of `EXTENSION_CONFIGS`. -/
def pythonConfig : ExtensionConfig :=
  ⟨[".venv", "venv", "__pycache__", ".mypy_cache"],
   ["__init__.py"],
   [".pyc"],
   ["dockerfile", "docker-compose.yml", "docker-compose.yaml"]⟩

/-- The `"dart"` entry of `EXTENSION_CONFIGS`. -/
def dartConfig : ExtensionConfig :=
  ⟨["ios", "android", "macos", "window", "web", "build", "assets", ".dart_tool"],
   [],
   [".g.dart", ".gr.dart"],
   ["pubspec.yaml"]⟩

/-- The `"sql"` entry of `EXTENSION_CONFIGS`. -/
def sqlConfig : ExtensionConfig := ⟨[], [], [], []⟩

/-- The `EXTENSION_CONFIGS` dictionary; `none` models a `KeyError`. -/
def EXTENSION_CONFIGS : String → Option ExtensionConfig
  | "common" => some commonConfig
  | "python" => some pythonConfig
  | "dart" => some dartConfig
  | "sql" => some sqlConfig
  | _ => none

/-- The `EXTENSION_MAP` dictionary; `none` models a `KeyError`. -/
def EXTENSION_MAP : String → Option String
  | "py" => some "python"
  | "dart" => some "dart"
  | "sql" => some "sql"
  | _ => none

/-- The `get_file_config` function of `main.py`: union the common policy's
collections with the category policy's, and union the caller's extra
excluded directories (`None` modelled as `Option`) into the excluded-dirs
collection.  Python's `set(a + b + c)` is modelled as the concatenated list,
which has the same membership. -/
def get_file_config (target_extension : String)
    (additional_exclude_dirs : Option (List String)) : Option FileConfig :=
  match EXTENSION_MAP target_extension with
  | none => none
  | some config_key =>
    match EXTENSION_CONFIGS config_key, EXTENSION_CONFIGS "common" with
    | some current_config, some common_config =>
        some ⟨common_config.exclude_dir ++ current_config.exclude_dir
                ++ additional_exclude_dirs.getD [],
              common_config.exclude_file ++ current_config.exclude_file,
              common_config.exclude_extension ++ current_config.exclude_extension,
              common_config.include_file ++ current_config.include_file⟩
    | _, _ => none

/-! ## `main.py`: validation and the inclusion predicate -/

/-- A directory tree: a directory's name, the names of the plain files
directly inside it, and its subdirectories, both in the order the
filesystem enumerates them. -/
inductive FSTree where
  | node (nm : String) (fls : List String) (subs : List FSTree) : FSTree

/-- What the filesystem holds at the root path: nothing, a regular
(non-directory) file, or a directory with its tree of entries. -/
inductive PathEntry where
  | missing : PathEntry
  | file : PathEntry
  | dir : FSTree → PathEntry

/-- The two error kinds `validate_inputs` can raise: `ValueError`
(unsupported extension) and `FileNotFoundError` (path not found). -/
inductive RunError where
  | unsupportedExtension : String → RunError
  | pathNotFound : String → RunError

/-- Model of `os.path.exists(directory)`. -/
def pathExists : PathEntry → Bool
  | .missing => false
  | _ => true

/-- The `validate_inputs` function of `main.py`: first the closed-set
extension check (raising `ValueError`), then the existence check (raising
`FileNotFoundError`). -/
def validate_inputs (entry : PathEntry) (directory : String)
    (target_extension : String) : Except RunError Unit :=
  if target_extension ∉ ["dart", "py", "sql"] then
    .error (.unsupportedExtension
      "Only \x27dart\x27, \x27py\x27, \x27sql\x27 file extensions are allowed.")
  else if !pathExists entry then
    .error (.pathNotFound
      ("The provided path \x27" ++ directory ++ "\x27 does not exist."))
  else
    .ok ()

/-- The `should_include_file` function of `main.py`, line for line. -/
def should_include_file (filename : String) (extension : String)
    (config : FileConfig) : Bool :=
  if filename ∈ config.exclude_files then false
  else if config.exclude_extensions.any (fun e => pyEndsWith filename e) then false
  else pyEndsWith filename ("." ++ extension) || pyLower filename ∈ config.include_files

/-! ## `main.py`: the traversal engine (`os.walk` with pruning) -/

/-- The name of a tree's root directory. -/
def FSTree.nodeName : FSTree → String
  | .node nm _ _ => nm

/-- The direct subdirectories of a tree's root directory. -/
def FSTree.nodeSubs : FSTree → List FSTree
  | .node _ _ subs => subs

/-- One `(root, dirs, files)` triple yielded by `os.walk`, together with the
directory's basename (`Path(root).name`) and its nesting level below the
walk root (the separator count `main.py` computes from the path suffix). -/
structure WalkEntry where
  path : String
  nm : String
  depth : Nat
  fls : List String
deriving DecidableEq

mutual

/-- Top-down `os.walk` with the in-place pruning both walks in `main.py`
perform (`dirs[:] = [d for d in dirs if d not in config.exclude_dirs]`):
a subdirectory whose name is excluded is skipped, and the remaining ones
are visited in enumeration order. -/
def walkTree (excl : List String) (path : String) (depth : Nat) :
    FSTree → List WalkEntry
  | .node nm fls subs => ⟨path, nm, depth, fls⟩ :: walkSubs excl path depth subs

/-- The recursion of `walkTree` over the (pruned) subdirectory list. -/
def walkSubs (excl : List String) (path : String) (depth : Nat) :
    List FSTree → List WalkEntry
  | [] => []
  | s :: rest =>
      (if s.nodeName ∈ excl then []
       else walkTree excl (path ++ "/" ++ s.nodeName) (depth + 1) s)
        ++ walkSubs excl path depth rest

end

/-- Model of `os.walk(abs_directory)`: yields the tree when the path is a directory
and nothing when the path is missing or a regular file. -/
def walkPath (entry : PathEntry) (abs_directory : String)
    (excl : List String) : List WalkEntry :=
  match entry with
  | .dir t => walkTree excl abs_directory 0 t
  | _ => []

/-- The inner loop of `collect_files`: for every walked directory, the
files that pass `should_include_file`, paired with the directory path the
loop joins them to. -/
def includedPairs (walked : List WalkEntry) (target_extension : String)
    (config : FileConfig) : List (String × String) :=
  walked.flatMap (fun e =>
    (e.fls.filter (fun f => should_include_file f target_extension config)).map
      (fun f => (e.path, f)))

/-- The `collect_files` function of `main.py`: walk with pruning, keep every
file passing `should_include_file`, and append its joined path to
`target_files` when the filename ends with `"." + target_extension`, and to
`infrastructure_files` otherwise.  The two in-order append loops are
modelled as the order-preserving partition of the included files. -/
def collect_files (entry : PathEntry) (directory : String)
    (target_extension : String) (config : FileConfig) :
    List String × List String :=
  let pairs := includedPairs (walkPath entry directory config.exclude_dirs)
    target_extension config
  ((pairs.filter (fun pf => pyEndsWith pf.2 ("." ++ target_extension))).map
      (fun pf => joinPath pf.1 pf.2),
   (pairs.filter (fun pf => !pyEndsWith pf.2 ("." ++ target_extension))).map
      (fun pf => joinPath pf.1 pf.2))

/-- The per-file classification that the branch structure of
`should_include_file` plus the `collect_files` split implements. -/
inductive Classification where
  | target : Classification
  | infrastructure : Classification
  | excluded : Classification
deriving DecidableEq

/-- How `main.py` classifies one filename: `should_include_file` decides
inclusion, and an included file is a target exactly when it ends with
`"." + extension` (lines 113-117 of `main.py`). -/
def classify (filename : String) (extension : String)
    (config : FileConfig) : Classification :=
  if should_include_file filename extension config then
    if pyEndsWith filename ("." ++ extension) then .target else .infrastructure
  else .excluded

/-- The five-step classification predicate exactly as the specification
words it (spec section 4.3, steps 1-5), written independently of the code
as the refinement reference. -/
def specFiveStepClassify (filename : String) (extension : String)
    (config : FileConfig) : Classification :=
  if filename ∈ config.exclude_files then .excluded
  else if config.exclude_extensions.any (fun e => pyEndsWith filename e) then .excluded
  else if pyEndsWith filename ("." ++ extension) then .target
  else if pyLower filename ∈ config.include_files then .infrastructure
  else .excluded

/-! ## `main.py`: the document renderer -/

/-- One iteration of the tree-listing loop in `generate_metadata_section`:
the directory line (`name/`, indented four spaces per level) followed by
the directory's included files, sorted, one level deeper. -/
def renderTreeLine (target_extension : String) (config : FileConfig)
    (e : WalkEntry) : String :=
  spaces (4 * e.depth) ++ e.nm ++ "/\n"
    ++ String.join
        ((sortStrings (e.fls.filter
            (fun f => should_include_file f target_extension config))).map
          (fun f => spaces (4 * (e.depth + 1)) ++ f ++ "\n"))

/-- The `generate_metadata_section` function of `main.py`: the two count
lines, then a fenced block whose body a fresh pruned walk accumulates. -/
def generate_metadata_section (entry : PathEntry) (abs_directory : String)
    (target_files infrastructure_files : List String)
    (target_extension : String) (config : FileConfig) : String :=
  "## Metadata\n\n"
    ++ "- Total number of \x27" ++ target_extension ++ "\x27 files: "
    ++ toString target_files.length ++ "\n"
    ++ "- Total number of Infrastructure files: "
    ++ toString infrastructure_files.length ++ "\n\n"
    ++ "```\n"
    ++ (walkPath entry abs_directory config.exclude_dirs).foldl
        (fun acc e => acc ++ renderTreeLine target_extension config e) ""
    ++ "```\n\n"

/-- The `get_file_extension` function of `main.py`: the code-block language
tag derived case-insensitively from the filename. -/
def get_file_extension (file_name : String) (target_extension : String) : String :=
  if pyLower file_name = "dockerfile" then "docker"
  else if pyLower file_name ∈ ["docker-compose.yml", "docker-compose.yaml"] then "yaml"
  else if pyLower file_name = "makefile" then "makefile"
  else target_extension

/-- One iteration of the `generate_code_section` loop: the level-3 heading
with the path relative to the root, then either the fenced code block with
the file's content, or - when the read raises - the one-line error message,
after which the loop moves on to the next file. -/
def renderFileSection (contents : String → Except String String)
    (abs_directory : String) (target_extension : String)
    (file_path : String) : String :=
  let relative_path := relpath file_path abs_directory
  let file_name := basename file_path
  let tag := get_file_extension file_name target_extension
  match contents file_path with
  | .ok file_content =>
      "### " ++ relative_path ++ "\n\n"
        ++ "```" ++ tag ++ "\n" ++ file_content ++ "\n```\n\n"
  | .error e =>
      "### " ++ relative_path ++ "\n\n" ++ "Error reading file: " ++ e ++ "\n\n"

/-- The `generate_code_section` function of `main.py`: the heading, then the
per-file sections accumulated over the lexicographically sorted file list. -/
def generate_code_section (contents : String → Except String String)
    (abs_directory : String) (files : List String)
    (target_extension : String) : String :=
  (sortStrings files).foldl
    (fun acc p => acc ++ renderFileSection contents abs_directory target_extension p)
    "## Code\n\n"

/-! ## `main.py`: `read_files_in_directory` and the entry glue of `main` -/

/-- The `read_files_in_directory` function of `main.py`: validate, resolve
the configuration, collect, and render header, metadata and code sections.
The `none` branch of the configuration lookup is unreachable, because
validation lets through exactly the extensions `get_file_config` resolves. -/
def read_files_in_directory (contents : String → Except String String)
    (entry : PathEntry) (directory : String) (target_extension : String)
    (title : Option String) (additional_exclude_dirs : Option (List String)) :
    Except RunError String :=
  match validate_inputs entry directory target_extension with
  | .error e => .error e
  | .ok _ =>
    match get_file_config target_extension additional_exclude_dirs with
    | none => .error (.unsupportedExtension
        "Only \x27dart\x27, \x27py\x27, \x27sql\x27 file extensions are allowed.")
    | some config =>
      let abs_directory := directory
      let header_title := title.getD (basename abs_directory)
      let collected := collect_files entry abs_directory target_extension config
      .ok ("# Files for " ++ header_title ++ "\n\n"
        ++ generate_metadata_section entry abs_directory collected.1 collected.2
            target_extension config
        ++ generate_code_section contents abs_directory
            (collected.1 ++ collected.2) target_extension)

/-- The `main` function's error handling: on success the markdown content is
written to the timestamped output file (`some content`), and a `ValueError`
or `FileNotFoundError` is caught and printed with no output file written
(`none`). -/
def main_run (contents : String → Except String String) (entry : PathEntry)
    (path : String) (extension : String) (title : Option String)
    (exclude_dir : Option (List String)) : Option String :=
  match read_files_in_directory contents entry path extension title exclude_dir with
  | .ok content => some content
  | .error _ => none

/-! ## Canonical form of a tree

Two runs of the tool on the same unchanged directory tree may receive the
directory entries in different enumeration orders; such pairs of runs are
exactly the pairs of `FSTree` values with the same canonical form, which
sorts the file list and the subdirectory list of every node. -/

/-- Length-prefixed encoding of one string, so concatenations of encodings
keep the boundaries. -/
def quoteStr (s : String) : String := toString s.data.length ++ ":" ++ s

/-- Encoding of a string list. -/
def strListKey : List String → String
  | [] => ""
  | s :: rest => quoteStr s ++ strListKey rest

mutual

/-- A sort key encoding a whole tree, used to order sibling subdirectories
canonically. -/
def treeKey : FSTree → String
  | .node nm fls subs =>
      quoteStr nm ++ "(" ++ strListKey fls ++ ")(" ++ treeListKey subs ++ ")"

/-- Encoding of a list of trees. -/
def treeListKey : List FSTree → String
  | [] => ""
  | s :: rest => "[" ++ treeKey s ++ "]" ++ treeListKey rest

end

mutual

/-- The canonical form of a tree: every node's files sorted and its
subdirectories canonicalized and sorted by their keys.  Reordering the
enumeration of any directory's entries leaves the canonical form unchanged. -/
def canonTree : FSTree → FSTree
  | .node nm fls subs =>
      .node nm (sortStrings fls)
        (sortBy (fun a b => pyLe (treeKey a) (treeKey b)) (canonList subs))

/-- The canonical form mapped over a list of trees. -/
def canonList : List FSTree → List FSTree
  | [] => []
  | s :: rest => canonTree s :: canonList rest

end

/-! ## The order `pyLe` is a total order -/

theorem lexLe_total : ∀ as bs, (lexLe as bs || lexLe bs as) = true := by
  intro as
  induction as with
  | nil => intro bs; simp [lexLe]
  | cons a as ih =>
    intro bs
    cases bs with
    | nil => simp [lexLe]
    | cons b bs =>
      simp only [lexLe]
      rcases lt_trichotomy a b with h | h | h
      · simp [h]
      · subst h; simp [lt_irrefl, ih bs]
      · simp [h, lt_asymm h]

theorem lexLe_trans :
    ∀ as bs cs, lexLe as bs = true → lexLe bs cs = true → lexLe as cs = true := by
  intro as
  induction as with
  | nil => intro bs cs _ _; simp [lexLe]
  | cons a as ih =>
    intro bs cs hab hbc
    cases bs with
    | nil => simp [lexLe] at hab
    | cons b bs =>
      cases cs with
      | nil => simp [lexLe] at hbc
      | cons c cs =>
        simp only [lexLe] at hab hbc ⊢
        rcases lt_trichotomy a b with h1 | h1 | h1
        · rcases lt_trichotomy b c with h2 | h2 | h2
          · simp [lt_trans h1 h2]
          · subst h2; simp [h1]
          · simp [h2, lt_asymm h2] at hbc
        · subst h1
          rcases lt_trichotomy a c with h3 | h3 | h3
          · simp [h3]
          · subst h3
            simp [lt_irrefl] at hab hbc ⊢
            exact ih _ _ hab hbc
          · simp [h3, lt_asymm h3] at hbc
        · simp [h1, lt_asymm h1] at hab

theorem lexLe_antisymm :
    ∀ as bs, lexLe as bs = true → lexLe bs as = true → as = bs := by
  intro as
  induction as with
  | nil =>
    intro bs _ hba
    cases bs with
    | nil => rfl
    | cons b bs => simp [lexLe] at hba
  | cons a as ih =>
    intro bs hab hba
    cases bs with
    | nil => simp [lexLe] at hab
    | cons b bs =>
      simp only [lexLe] at hab hba
      rcases lt_trichotomy a b with h | h | h
      · simp [h, lt_asymm h] at hba
      · subst h
        simp [lt_irrefl] at hab hba
        rw [ih bs hab hba]
      · simp [h, lt_asymm h] at hab

theorem pyLe_total (s t : String) : (pyLe s t || pyLe t s) = true :=
  lexLe_total s.data t.data

theorem pyLe_trans {s t u : String} :
    pyLe s t = true → pyLe t u = true → pyLe s u = true :=
  lexLe_trans s.data t.data u.data

theorem pyLe_antisymm {s t : String} :
    pyLe s t = true → pyLe t s = true → s = t := by
  intro h1 h2
  exact String.ext (lexLe_antisymm s.data t.data h1 h2)

/-! ## Sorting lemmas -/

theorem insertBy_perm {α : Type} (le : α → α → Bool) (x : α) :
    ∀ l : List α, (insertBy le x l).Perm (x :: l) := by
  intro l
  induction l with
  | nil => simp [insertBy]
  | cons y ys ih =>
    simp only [insertBy]
    by_cases h : le y x = true
    · simp only [h, if_pos]
      exact (ih.cons y).trans (List.Perm.swap x y ys)
    · simp [h]

theorem sortBy_perm {α : Type} (le : α → α → Bool) :
    ∀ l : List α, (sortBy le l).Perm l := by
  intro l
  induction l with
  | nil => simp [sortBy]
  | cons x xs ih =>
    exact (insertBy_perm le x (sortBy le xs)).trans (ih.cons x)

theorem insertBy_sorted {α : Type} (le : α → α → Bool)
    (htot : ∀ a b, (le a b || le b a) = true)
    (htrans : ∀ a b c, le a b = true → le b c = true → le a c = true) (x : α) :
    ∀ l : List α, List.Pairwise (fun a b => le a b = true) l →
      List.Pairwise (fun a b => le a b = true) (insertBy le x l) := by
  intro l
  induction l with
  | nil => intro _; simp [insertBy]
  | cons y ys ih =>
    intro hp
    rw [List.pairwise_cons] at hp
    simp only [insertBy]
    by_cases h : le y x = true
    · rw [if_pos h, List.pairwise_cons]
      refine ⟨?_, ih hp.2⟩
      intro b hb
      rcases List.mem_cons.mp ((insertBy_perm le x ys).mem_iff.mp hb) with hbx | hby
      · subst hbx; exact h
      · exact hp.1 b hby
    · rw [if_neg h, List.pairwise_cons]
      have hyx : le y x = false := Bool.not_eq_true _ |>.mp h
      have hxy : le x y = true := by
        have := htot y x
        rw [hyx] at this
        simpa using this
      constructor
      · intro b hb
        rcases List.mem_cons.mp hb with rfl | hbys
        · exact hxy
        · exact htrans x y b hxy (hp.1 b hbys)
      · exact List.pairwise_cons.mpr hp

theorem sortBy_sorted {α : Type} (le : α → α → Bool)
    (htot : ∀ a b, (le a b || le b a) = true)
    (htrans : ∀ a b c, le a b = true → le b c = true → le a c = true) :
    ∀ l : List α, List.Pairwise (fun a b => le a b = true) (sortBy le l) := by
  intro l
  induction l with
  | nil => simp [sortBy]
  | cons x xs ih => exact insertBy_sorted le htot htrans x (sortBy le xs) ih

theorem sortBy_eq_of_perm {α : Type} (le : α → α → Bool)
    (htot : ∀ a b, (le a b || le b a) = true)
    (htrans : ∀ a b c, le a b = true → le b c = true → le a c = true)
    (hanti : ∀ a b, le a b = true → le b a = true → a = b)
    {l₁ l₂ : List α} (hperm : l₁.Perm l₂) : sortBy le l₁ = sortBy le l₂ := by
  have h1 : (sortBy le l₁).Perm (sortBy le l₂) :=
    ((sortBy_perm le l₁).trans hperm).trans (sortBy_perm le l₂).symm
  exact @List.eq_of_perm_of_sorted α (fun a b => le a b = true)
    ⟨fun a b hab hba => hanti a b hab hba⟩ _ _ h1
    (sortBy_sorted le htot htrans l₁) (sortBy_sorted le htot htrans l₂)

theorem sortStrings_perm (l : List String) : (sortStrings l).Perm l :=
  sortBy_perm pyLe l

theorem sortStrings_sorted (l : List String) :
    List.Pairwise (fun a b => pyLe a b = true) (sortStrings l) :=
  sortBy_sorted pyLe pyLe_total (fun _ _ _ => pyLe_trans) l

theorem sortStrings_eq_of_perm {l₁ l₂ : List String} (h : l₁.Perm l₂) :
    sortStrings l₁ = sortStrings l₂ :=
  sortBy_eq_of_perm pyLe pyLe_total (fun _ _ _ => pyLe_trans)
    (fun _ _ => pyLe_antisymm) h

theorem strFoldlAppend (l : List String) :
    ∀ a : String, l.foldl (· ++ ·) a = a ++ l.foldl (· ++ ·) "" := by
  induction l with
  | nil => intro a; simp
  | cons s rest ih =>
    intro a
    simp only [List.foldl_cons]
    rw [String.empty_append, ih (a ++ s), ih s, String.append_assoc]

theorem strJoin_cons (s : String) (l : List String) :
    String.join (s :: l) = s ++ String.join l := by
  show List.foldl (· ++ ·) "" (s :: l) = s ++ List.foldl (· ++ ·) "" l
  simp only [List.foldl_cons]
  rw [String.empty_append, strFoldlAppend l s]

/-- Accumulating a rendering loop with `+=` is appending the concatenation
of the per-element pieces. -/
theorem foldl_append_eq_join {α : Type} (f : α → String) :
    ∀ (l : List α) (init : String),
      l.foldl (fun acc e => acc ++ f e) init = init ++ String.join (l.map f) := by
  intro l
  induction l with
  | nil => intro init; simp [String.join]
  | cons e rest ih =>
    intro init
    simp only [List.foldl_cons, List.map_cons]
    rw [ih (init ++ f e), strJoin_cons, String.append_assoc]

/-! ## Walk lemmas -/

/-- Structural induction over the nested tree type. -/
theorem FSTree.inductionOn {P : FSTree → Prop}
    (h : ∀ nm fls subs, (∀ s ∈ subs, P s) → P (FSTree.node nm fls subs)) :
    ∀ t, P t
  | .node nm fls subs => h nm fls subs (fun s hs =>
      have : sizeOf s < sizeOf (FSTree.node nm fls subs) := by
        have := List.sizeOf_lt_of_mem hs
        simp only [FSTree.node.sizeOf_spec]
        omega
      FSTree.inductionOn h s)
termination_by t => sizeOf t

theorem walkSubs_eq_flatMap (excl : List String) (path : String) (depth : Nat) :
    ∀ l : List FSTree,
      walkSubs excl path depth l = l.flatMap (fun s =>
        if s.nodeName ∈ excl then []
        else walkTree excl (path ++ "/" ++ s.nodeName) (depth + 1) s) := by
  intro l
  induction l with
  | nil => simp [walkSubs]
  | cons s rest ih => simp [walkSubs, ih]

theorem canonList_eq_map : ∀ l : List FSTree, canonList l = l.map canonTree := by
  intro l
  induction l with
  | nil => simp [canonList]
  | cons s rest ih => simp [canonList, ih]

theorem canonTree_nodeName (t : FSTree) : (canonTree t).nodeName = t.nodeName := by
  cases t with
  | node nm fls subs => simp [canonTree, FSTree.nodeName]

theorem includedPairs_nil (te : String) (cfg : FileConfig) :
    includedPairs [] te cfg = [] := by
  simp [includedPairs]

theorem includedPairs_cons (e : WalkEntry) (rest : List WalkEntry)
    (te : String) (cfg : FileConfig) :
    includedPairs (e :: rest) te cfg =
      (e.fls.filter (fun f => should_include_file f te cfg)).map
          (fun f => (e.path, f))
        ++ includedPairs rest te cfg := by
  simp [includedPairs]

theorem includedPairs_flatMap (g : FSTree → List WalkEntry) (l : List FSTree)
    (te : String) (cfg : FileConfig) :
    includedPairs (l.flatMap g) te cfg =
      l.flatMap (fun s => includedPairs (g s) te cfg) := by
  simp [includedPairs, List.flatMap_assoc]

/-- Canonicalizing the tree permutes, but never changes, the collection of
included `(directory path, filename)` pairs produced by the pruned walk. -/
theorem includedPairs_canon (excl : List String) (te : String)
    (cfg : FileConfig) :
    ∀ t : FSTree, ∀ path depth,
      (includedPairs (walkTree excl path depth (canonTree t)) te cfg).Perm
        (includedPairs (walkTree excl path depth t) te cfg) := by
  intro t
  induction t using FSTree.inductionOn with
  | h nm fls subs ih =>
    intro path depth
    have hcanon : canonTree (FSTree.node nm fls subs)
        = FSTree.node nm (sortStrings fls)
            (sortBy (fun a b => pyLe (treeKey a) (treeKey b)) (canonList subs)) := by
      simp [canonTree]
    rw [hcanon]
    show (includedPairs
        (⟨path, nm, depth, sortStrings fls⟩ ::
          walkSubs excl path depth
            (sortBy (fun a b => pyLe (treeKey a) (treeKey b)) (canonList subs)))
        te cfg).Perm
      (includedPairs
        (⟨path, nm, depth, fls⟩ :: walkSubs excl path depth subs) te cfg)
    rw [includedPairs_cons, includedPairs_cons]
    refine List.Perm.append ?_ ?_
    · exact ((sortStrings_perm fls).filter _).map _
    · rw [walkSubs_eq_flatMap, walkSubs_eq_flatMap,
        includedPairs_flatMap, includedPairs_flatMap]
      have hsort : (sortBy (fun a b => pyLe (treeKey a) (treeKey b))
          (canonList subs)).Perm (canonList subs) := sortBy_perm _ _
      refine (List.Perm.flatMap_right _ hsort).trans ?_
      rw [canonList_eq_map, List.flatMap_map]
      refine List.Perm.flatMap_left subs ?_
      intro s hs
      rw [canonTree_nodeName]
      by_cases hmem : s.nodeName ∈ excl
      · simp [hmem, includedPairs_nil]
      · simp only [hmem, if_neg, not_false_iff]
        exact ih s hs _ _

/-! ## Suffix lemmas for joined paths -/

theorem pyEndsWith_joinPath_of {a f suf : String}
    (h : pyEndsWith f suf = true) : pyEndsWith (joinPath a f) suf = true := by
  unfold pyEndsWith at h ⊢
  rw [List.isSuffixOf_iff_suffix] at h ⊢
  show suf.data <:+ (a ++ "/" ++ f).data
  rw [String.data_append]
  exact h.trans (List.suffix_append _ _)

theorem pyEndsWith_joinPath_of_not {a f suf : String}
    (hs : '/' ∉ suf.data) (h : pyEndsWith f suf = false) :
    pyEndsWith (joinPath a f) suf = false := by
  by_contra hcon
  rw [Bool.not_eq_false] at hcon
  unfold pyEndsWith at hcon
  rw [List.isSuffixOf_iff_suffix] at hcon
  have hnot : ¬ (suf.data <:+ f.data) := by
    rw [← List.isSuffixOf_iff_suffix]
    simp [pyEndsWith] at h
    simp [h]
  have h2 : ('/' :: f.data) <:+ (joinPath a f).data := by
    show ('/' :: f.data) <:+ (a ++ "/" ++ f).data
    rw [String.data_append, String.data_append]
    have hslash : ("/" : String).data = ['/'] := rfl
    rw [hslash, List.append_assoc]
    exact List.suffix_append a.data ('/' :: f.data)
  rcases List.suffix_or_suffix_of_suffix hcon h2 with hc | hc
  · rcases List.suffix_cons_iff.mp hc with heq | hsuf
    · exact hs (heq ▸ List.mem_cons_self _ _)
    · exact hnot hsuf
  · exact hs (hc.subset (List.mem_cons_self _ _))

/-! ## Membership in the collected pairs -/

theorem mem_includedPairs {walked : List WalkEntry} {te : String}
    {cfg : FileConfig} {pf : String × String} :
    pf ∈ includedPairs walked te cfg ↔
      ∃ e ∈ walked, e.path = pf.1 ∧ pf.2 ∈ e.fls ∧
        should_include_file pf.2 te cfg = true := by
  unfold includedPairs
  rw [List.mem_flatMap]
  constructor
  · rintro ⟨e, he, hpf⟩
    rw [List.mem_map] at hpf
    obtain ⟨f, hf, heq⟩ := hpf
    rw [List.mem_filter] at hf
    obtain ⟨hfe, hinc⟩ := hf
    refine ⟨e, he, ?_, ?_, ?_⟩
    · rw [← heq]
    · rw [← heq]; exact hfe
    · rw [← heq]; exact hinc
  · rintro ⟨e, he, hpath, hfe, hinc⟩
    refine ⟨e, he, ?_⟩
    rw [List.mem_map]
    refine ⟨pf.2, List.mem_filter.mpr ⟨hfe, hinc⟩, ?_⟩
    rw [hpath]

/-! ## Claims -/

/-- Claim C9: for every rendered file and requested extension, the
code-block language tag is "docker" when the filename is "dockerfile" in
any case, "yaml" when it is "docker-compose.yml" or "docker-compose.yaml"
in any case, "makefile" when it is "makefile" in any case, and the
requested extension for every other filename. -/
theorem claim_c9 (file_name target_extension : String) :
    (pyLower file_name = "dockerfile" →
      get_file_extension file_name target_extension = "docker") ∧
    (pyLower file_name = "docker-compose.yml" ∨
        pyLower file_name = "docker-compose.yaml" →
      get_file_extension file_name target_extension = "yaml") ∧
    (pyLower file_name = "makefile" →
      get_file_extension file_name target_extension = "makefile") ∧
    (pyLower file_name ≠ "dockerfile" →
     pyLower file_name ≠ "docker-compose.yml" →
     pyLower file_name ≠ "docker-compose.yaml" →
     pyLower file_name ≠ "makefile" →
      get_file_extension file_name target_extension = target_extension) := by
  unfold get_file_extension
  refine ⟨?_, ?_, ?_, ?_⟩
  · intro h; rw [h, if_pos rfl]
  · rintro (h | h) <;> rw [h, if_neg (by decide), if_pos (by decide)]
  · intro h; rw [h, if_neg (by decide), if_neg (by decide), if_pos rfl]
  · intro h1 h2 h3 h4
    simp [h1, h2, h3, h4]

/-- Witness for C9 at the filenames the specification singles out. -/
theorem claim_c9_witness :
    pyLower "DOCKERFILE" = "dockerfile" ∧
    get_file_extension "DOCKERFILE" "py" = "docker" ∧
    pyLower "Makefile" = "makefile" ∧
    get_file_extension "Makefile" "sql" = "makefile" :=
  ⟨rfl, (claim_c9 "DOCKERFILE" "py").1 rfl, rfl,
    (claim_c9 "Makefile" "sql").2.2.1 rfl⟩

/-- Claim C5: for every extension outside the closed set and every state of
the filesystem at the root path, the run fails with the
unsupported-extension error - the same error for every filesystem state, so
before the root path's existence is consulted and before any traversal -
and no output file is written. -/
theorem claim_c5 (contents : String → Except String String) (entry : PathEntry)
    (directory target_extension : String) (title : Option String)
    (extra : Option (List String))
    (h : target_extension ∉ (["py", "dart", "sql"] : List String)) :
    read_files_in_directory contents entry directory target_extension title extra
        = .error (.unsupportedExtension
            "Only \x27dart\x27, \x27py\x27, \x27sql\x27 file extensions are allowed.")
      ∧ main_run contents entry directory target_extension title extra = none := by
  have h' : target_extension ∉ (["dart", "py", "sql"] : List String) := by
    simp only [List.mem_cons, List.not_mem_nil, or_false] at h ⊢
    tauto
  have hv : validate_inputs entry directory target_extension
      = .error (.unsupportedExtension
          "Only \x27dart\x27, \x27py\x27, \x27sql\x27 file extensions are allowed.") := by
    unfold validate_inputs
    rw [if_pos h']
  constructor
  · unfold read_files_in_directory
    rw [hv]
  · unfold main_run read_files_in_directory
    rw [hv]

/-- Witness for C5 at the unsupported extension "txt" with a missing root. -/
theorem claim_c5_witness :
    read_files_in_directory (fun _ => Except.error "boom") PathEntry.missing
        "/p" "txt" none none
      = .error (.unsupportedExtension
          "Only \x27dart\x27, \x27py\x27, \x27sql\x27 file extensions are allowed.")
    ∧ main_run (fun _ => Except.error "boom") PathEntry.missing
        "/p" "txt" none none = none :=
  claim_c5 (fun _ => Except.error "boom") PathEntry.missing "/p" "txt" none none
    (by decide)

/-- Counterexample to C4 as stated: a root path that exists as a regular
file is not a readable directory, yet the run does not fail - `os.path.exists`
accepts it, the walk yields nothing, and an output file with empty
target and infrastructure lists is written. -/
theorem claim_c4_counterexample :
    (read_files_in_directory (fun _ => Except.error "unreadable")
        PathEntry.file "/p" "py" none none).isOk = true
    ∧ (main_run (fun _ => Except.error "unreadable")
        PathEntry.file "/p" "py" none none).isSome = true := by
  decide

/-- Claim C4 (amended): for every supported extension, a root path that
does not exist at all fails with the path-not-found error - the same
error for every content oracle, so with no traversal performed - and no
output file is written.  (A root that exists but is not a readable
directory passes the `os.path.exists` check instead.) -/
theorem claim_c4_amended (contents : String → Except String String)
    (directory target_extension : String) (title : Option String)
    (extra : Option (List String))
    (h : target_extension ∈ (["dart", "py", "sql"] : List String)) :
    read_files_in_directory contents PathEntry.missing directory
        target_extension title extra
      = .error (.pathNotFound
          ("The provided path \x27" ++ directory ++ "\x27 does not exist."))
    ∧ main_run contents PathEntry.missing directory target_extension title extra
      = none := by
  have hv : validate_inputs PathEntry.missing directory target_extension
      = .error (.pathNotFound
          ("The provided path \x27" ++ directory ++ "\x27 does not exist.")) := by
    unfold validate_inputs
    rw [if_neg (not_not_intro h)]
    rfl
  constructor
  · unfold read_files_in_directory
    rw [hv]
  · unfold main_run read_files_in_directory
    rw [hv]

/-- Witness for the amended C4 at extension "py" and root "/nope". -/
theorem claim_c4_amended_witness :
    read_files_in_directory (fun _ => Except.ok "text") PathEntry.missing
        "/nope" "py" none none
      = .error (.pathNotFound
          ("The provided path \x27" ++ "/nope" ++ "\x27 does not exist."))
    ∧ main_run (fun _ => Except.ok "text") PathEntry.missing
        "/nope" "py" none none = none :=
  claim_c4_amended (fun _ => Except.ok "text") "/nope" "py" none none (by decide)

/-- Claim C6: for every supported extension and extra excluded directories,
`get_file_config` returns the filter set whose four collections are the
membership unions of the common policy's and the category policy's
collections, with the extra excluded directories additionally unioned
into - never replacing - the excluded-directories collection.  The
resolver is a pure function of its arguments. -/
theorem claim_c6 (target_extension config_key : String)
    (current_config : ExtensionConfig) (extra : Option (List String))
    (hmap : EXTENSION_MAP target_extension = some config_key)
    (hcur : EXTENSION_CONFIGS config_key = some current_config) :
    ∃ fc, get_file_config target_extension extra = some fc ∧
      (∀ s, s ∈ fc.exclude_dirs ↔ s ∈ commonConfig.exclude_dir ∨
        s ∈ current_config.exclude_dir ∨ s ∈ extra.getD []) ∧
      (∀ s, s ∈ fc.exclude_files ↔ s ∈ commonConfig.exclude_file ∨
        s ∈ current_config.exclude_file) ∧
      (∀ s, s ∈ fc.exclude_extensions ↔ s ∈ commonConfig.exclude_extension ∨
        s ∈ current_config.exclude_extension) ∧
      (∀ s, s ∈ fc.include_files ↔ s ∈ commonConfig.include_file ∨
        s ∈ current_config.include_file) := by
  refine ⟨⟨commonConfig.exclude_dir ++ current_config.exclude_dir
            ++ extra.getD [],
          commonConfig.exclude_file ++ current_config.exclude_file,
          commonConfig.exclude_extension ++ current_config.exclude_extension,
          commonConfig.include_file ++ current_config.include_file⟩,
        ?_, ?_, ?_, ?_, ?_⟩
  · simp only [get_file_config, hmap, hcur]
    rfl
  · intro s; simp [List.mem_append, or_assoc]
  · intro s; simp [List.mem_append]
  · intro s; simp [List.mem_append]
  · intro s; simp [List.mem_append]

/-- Witness for C6: for "py" with one extra directory, the built-in and the
extra excluded directories are all present in the resolved filter set. -/
theorem claim_c6_witness :
    EXTENSION_MAP "py" = some "python" ∧
    EXTENSION_CONFIGS "python" = some pythonConfig ∧
    ((get_file_config "py" (some ["mydir"])).map (fun fc =>
        decide (".venv" ∈ fc.exclude_dirs) && decide ("mydir" ∈ fc.exclude_dirs)
          && decide ("__init__.py" ∈ fc.exclude_files)
          && decide ("dockerfile" ∈ fc.include_files)))
      = some true := by
  refine ⟨rfl, rfl, ?_⟩
  obtain ⟨fc, hfc, hdirs, hfiles, _, hinc⟩ :=
    claim_c6 "py" "python" pythonConfig (some ["mydir"]) rfl rfl
  rw [hfc]
  have h1 : ".venv" ∈ fc.exclude_dirs :=
    (hdirs ".venv").mpr (Or.inr (Or.inl (by decide)))
  have h2 : "mydir" ∈ fc.exclude_dirs :=
    (hdirs "mydir").mpr (Or.inr (Or.inr (by decide)))
  have h3 : "__init__.py" ∈ fc.exclude_files :=
    (hfiles "__init__.py").mpr (Or.inr (by decide))
  have h4 : "dockerfile" ∈ fc.include_files :=
    (hinc "dockerfile").mpr (Or.inr (by decide))
  simp [h1, h2, h3, h4]

/-- Claim C1: classification follows the spec's five-step predicate in
order, and on a directory containing `a.py`, `b.pyc`, `__init__.py` and
`Dockerfile`, requesting extension `py` yields exactly `a.py` as target and
`Dockerfile` as infrastructure. -/
theorem claim_c1 :
    (∀ filename extension cfg,
      classify filename extension cfg = specFiveStepClassify filename extension cfg)
    ∧ ((get_file_config "py" none).map (fun cfg =>
          collect_files
            (PathEntry.dir
              (FSTree.node "proj" ["a.py", "b.pyc", "__init__.py", "Dockerfile"] []))
            "proj" "py" cfg)
        = some (["proj/a.py"], ["proj/Dockerfile"])) := by
  constructor
  · intro filename extension cfg
    unfold classify specFiveStepClassify should_include_file
    by_cases h1 : filename ∈ cfg.exclude_files
    · simp [h1]
    · by_cases h2 : cfg.exclude_extensions.any (fun e => pyEndsWith filename e) = true
      · simp [h1, h2]
      · by_cases h3 : pyEndsWith filename ("." ++ extension) = true
        · simp [h1, h2, h3]
        · by_cases h4 : pyLower filename ∈ cfg.include_files
          · simp [h1, h2, h3, h4]
          · simp [h1, h2, h3, h4]
  · decide

/-- Claim C10: the two lists returned by `collect_files` are disjoint -
every target path ends with `"." + extension` and no infrastructure path
does - and together they contain exactly the joined paths of the files, in
non-pruned directories, that satisfy the inclusion predicate. -/
theorem slash_not_mem_dot_ext {target_extension : String}
    (hte : target_extension ∈ (["dart", "py", "sql"] : List String)) :
    '/' ∉ ("." ++ target_extension).data := by
  rcases List.mem_cons.mp hte with rfl | hte'
  · decide
  rcases List.mem_cons.mp hte' with rfl | hte''
  · decide
  rcases List.mem_cons.mp hte'' with rfl | hte'''
  · decide
  · simp at hte'''

theorem collect_files_fst_endsWith {entry : PathEntry}
    {directory target_extension : String} {cfg : FileConfig}
    {tfs infs : List String}
    (hc : collect_files entry directory target_extension cfg = (tfs, infs)) :
    ∀ x ∈ tfs, pyEndsWith x ("." ++ target_extension) = true := by
  unfold collect_files at hc
  rw [Prod.mk.injEq] at hc
  intro x hx
  rw [← hc.1, List.mem_map] at hx
  obtain ⟨pf, hpf, hjoin⟩ := hx
  rw [List.mem_filter] at hpf
  rw [← hjoin]
  exact pyEndsWith_joinPath_of hpf.2

theorem collect_files_snd_not_endsWith {entry : PathEntry}
    {directory target_extension : String} {cfg : FileConfig}
    {tfs infs : List String}
    (hte : target_extension ∈ (["dart", "py", "sql"] : List String))
    (hc : collect_files entry directory target_extension cfg = (tfs, infs)) :
    ∀ x ∈ infs, pyEndsWith x ("." ++ target_extension) = false := by
  unfold collect_files at hc
  rw [Prod.mk.injEq] at hc
  intro x hx
  rw [← hc.2, List.mem_map] at hx
  obtain ⟨pf, hpf, hjoin⟩ := hx
  rw [List.mem_filter] at hpf
  rw [← hjoin]
  have hfalse : pyEndsWith pf.2 ("." ++ target_extension) = false := by
    have := hpf.2
    rwa [Bool.not_eq_true'] at this
  exact pyEndsWith_joinPath_of_not (slash_not_mem_dot_ext hte) hfalse

theorem claim_c10 (entry : PathEntry) (directory target_extension : String)
    (cfg : FileConfig) (tfs infs : List String)
    (hte : target_extension ∈ (["dart", "py", "sql"] : List String))
    (hc : collect_files entry directory target_extension cfg = (tfs, infs)) :
    (∀ x ∈ tfs, pyEndsWith x ("." ++ target_extension) = true) ∧
    (∀ x ∈ infs, pyEndsWith x ("." ++ target_extension) = false) ∧
    (∀ x, ¬(x ∈ tfs ∧ x ∈ infs)) ∧
    (∀ x, (x ∈ tfs ∨ x ∈ infs) ↔
      ∃ e ∈ walkPath entry directory cfg.exclude_dirs, ∃ f ∈ e.fls,
        should_include_file f target_extension cfg = true ∧
          x = joinPath e.path f) := by
  have htfmem := collect_files_fst_endsWith hc
  have hinfmem := collect_files_snd_not_endsWith hte hc
  unfold collect_files at hc
  rw [Prod.mk.injEq] at hc
  obtain ⟨htf, hinf⟩ := hc
  refine ⟨htfmem, hinfmem, ?_, ?_⟩
  · rintro x ⟨hxt, hxi⟩
    have h1 := htfmem x hxt
    have h2 := hinfmem x hxi
    rw [h1] at h2
    simp at h2
  · intro x
    constructor
    · rintro (hx | hx)
      · rw [← htf, List.mem_map] at hx
        obtain ⟨pf, hpf, hjoin⟩ := hx
        rw [List.mem_filter] at hpf
        obtain ⟨e, he, hpath, hfe, hinc⟩ := mem_includedPairs.mp hpf.1
        exact ⟨e, he, pf.2, hfe, hinc, by rw [← hjoin, ← hpath]⟩
      · rw [← hinf, List.mem_map] at hx
        obtain ⟨pf, hpf, hjoin⟩ := hx
        rw [List.mem_filter] at hpf
        obtain ⟨e, he, hpath, hfe, hinc⟩ := mem_includedPairs.mp hpf.1
        exact ⟨e, he, pf.2, hfe, hinc, by rw [← hjoin, ← hpath]⟩
    · rintro ⟨e, he, f, hfe, hinc, hx⟩
      have hpairs : (e.path, f) ∈ includedPairs
          (walkPath entry directory cfg.exclude_dirs) target_extension cfg :=
        mem_includedPairs.mpr ⟨e, he, rfl, hfe, hinc⟩
      by_cases hend : pyEndsWith f ("." ++ target_extension) = true
      · left
        rw [← htf, List.mem_map]
        exact ⟨(e.path, f), List.mem_filter.mpr ⟨hpairs, hend⟩, hx.symm⟩
      · right
        rw [← hinf, List.mem_map]
        refine ⟨(e.path, f), List.mem_filter.mpr ⟨hpairs, ?_⟩, hx.symm⟩
        simp [Bool.not_eq_true] at hend
        simp [hend]

/-- Witness for C10 on a one-directory tree with one target and one
infrastructure file. -/
theorem claim_c10_witness :
    collect_files (PathEntry.dir (FSTree.node "proj" ["a.py", "Dockerfile"] []))
        "proj" "py" ⟨[], [], [], ["dockerfile"]⟩
      = (["proj/a.py"], ["proj/Dockerfile"]) ∧
    pyEndsWith "proj/a.py" ("." ++ "py") = true ∧
    pyEndsWith "proj/Dockerfile" ("." ++ "py") = false := by
  have h := claim_c10 (PathEntry.dir (FSTree.node "proj" ["a.py", "Dockerfile"] []))
    "proj" "py" ⟨[], [], [], ["dockerfile"]⟩ ["proj/a.py"] ["proj/Dockerfile"]
    (by decide) (by decide)
  exact ⟨by decide, h.1 "proj/a.py" (by decide), h.2.1 "proj/Dockerfile" (by decide)⟩

/-- Claim C7: the code-section headings are emitted in lexicographic order
of the combined target-plus-infrastructure paths, and the metadata
section's two rendered counts equal the numbers of target and
infrastructure files actually rendered in the code section. -/
theorem claim_c7 (contents : String → Except String String) (entry : PathEntry)
    (directory target_extension : String) (cfg : FileConfig)
    (tfs infs : List String)
    (hte : target_extension ∈ (["dart", "py", "sql"] : List String))
    (hc : collect_files entry directory target_extension cfg = (tfs, infs)) :
    generate_code_section contents directory (tfs ++ infs) target_extension
        = "## Code\n\n" ++ String.join ((sortStrings (tfs ++ infs)).map
            (renderFileSection contents directory target_extension)) ∧
    List.Pairwise (fun a b => pyLe a b = true) (sortStrings (tfs ++ infs)) ∧
    ((sortStrings (tfs ++ infs)).filter
        (fun p => pyEndsWith p ("." ++ target_extension))).length = tfs.length ∧
    ((sortStrings (tfs ++ infs)).filter
        (fun p => !pyEndsWith p ("." ++ target_extension))).length = infs.length ∧
    generate_metadata_section entry directory tfs infs target_extension cfg
      = "## Metadata\n\n"
          ++ "- Total number of \x27" ++ target_extension ++ "\x27 files: "
          ++ toString tfs.length ++ "\n"
          ++ "- Total number of Infrastructure files: "
          ++ toString infs.length ++ "\n\n"
          ++ "```\n"
          ++ String.join ((walkPath entry directory cfg.exclude_dirs).map
              (renderTreeLine target_extension cfg))
          ++ "```\n\n" := by
  have htf := collect_files_fst_endsWith hc
  have hinf := collect_files_snd_not_endsWith hte hc
  have hperm : (sortStrings (tfs ++ infs)).Perm (tfs ++ infs) :=
    sortStrings_perm _
  refine ⟨?_, sortStrings_sorted _, ?_, ?_, ?_⟩
  · unfold generate_code_section
    rw [foldl_append_eq_join]
  · rw [← List.countP_eq_length_filter, hperm.countP_eq, List.countP_append]
    have h1 : List.countP (fun p => pyEndsWith p ("." ++ target_extension)) tfs
        = tfs.length := List.countP_eq_length.mpr htf
    have h2 : List.countP (fun p => pyEndsWith p ("." ++ target_extension)) infs
        = 0 := by
      rw [List.countP_eq_zero]
      intro a ha
      simp [hinf a ha]
    rw [h1, h2, Nat.add_zero]
  · rw [← List.countP_eq_length_filter, hperm.countP_eq, List.countP_append]
    have h1 : List.countP (fun p => !pyEndsWith p ("." ++ target_extension)) tfs
        = 0 := by
      rw [List.countP_eq_zero]
      intro a ha
      simp [htf a ha]
    have h2 : List.countP (fun p => !pyEndsWith p ("." ++ target_extension)) infs
        = infs.length := by
      rw [List.countP_eq_length]
      intro a ha
      simp [hinf a ha]
    rw [h1, h2, Nat.zero_add]
  · unfold generate_metadata_section
    rw [foldl_append_eq_join, String.empty_append]

/-- Witness for C7 on a one-directory tree with one target and one
infrastructure file. -/
theorem claim_c7_witness :
    ((sortStrings (["proj/a.py"] ++ ["proj/Dockerfile"])).filter
        (fun p => pyEndsWith p ("." ++ "py"))).length = 1 ∧
    generate_code_section (fun _ => Except.ok "c") "proj"
        (["proj/a.py"] ++ ["proj/Dockerfile"]) "py"
      = "## Code\n\n" ++ String.join
          ((sortStrings (["proj/a.py"] ++ ["proj/Dockerfile"])).map
            (renderFileSection (fun _ => Except.ok "c") "proj" "py")) := by
  have h := claim_c7 (fun _ => Except.ok "c")
    (PathEntry.dir (FSTree.node "proj" ["a.py", "Dockerfile"] []))
    "proj" "py" ⟨[], [], [], ["dockerfile"]⟩ ["proj/a.py"] ["proj/Dockerfile"]
    (by decide) (by decide)
  exact ⟨h.2.2.1, h.1⟩

/-- Claim C8: a file that cannot be read still gets its section, with the
body replaced by the one-line error message naming the failure; every
listed file contributes exactly one section regardless of read errors, and
the rendering of every other file is unchanged by the failure. -/
theorem claim_c8 (contents contents2 : String → Except String String)
    (abs_directory target_extension p msg : String) (files : List String)
    (_hp : p ∈ files) (herr : contents p = .error msg)
    (hagree : ∀ q, q ≠ p → contents2 q = contents q) :
    renderFileSection contents abs_directory target_extension p
        = "### " ++ relpath p abs_directory ++ "\n\n"
          ++ "Error reading file: " ++ msg ++ "\n\n" ∧
    generate_code_section contents abs_directory files target_extension
        = "## Code\n\n" ++ String.join ((sortStrings files).map
            (renderFileSection contents abs_directory target_extension)) ∧
    ((sortStrings files).map
        (renderFileSection contents abs_directory target_extension)).length
      = files.length ∧
    (∀ q ∈ files, q ≠ p →
      renderFileSection contents2 abs_directory target_extension q
        = renderFileSection contents abs_directory target_extension q) := by
  refine ⟨?_, ?_, ?_, ?_⟩
  · simp only [renderFileSection, herr]
  · unfold generate_code_section
    rw [foldl_append_eq_join]
  · rw [List.length_map]
    exact (sortStrings_perm files).length_eq
  · intro q hq hne
    simp only [renderFileSection, hagree q hne]

/-- Witness for C8: one unreadable file among two; its section carries the
error line and the other file's section is what a fully readable oracle
renders. -/
theorem claim_c8_witness :
    renderFileSection
        (fun q => if q = "r/bad.py" then Except.error "io" else Except.ok "text")
        "r" "py" "r/bad.py"
      = "### " ++ relpath "r/bad.py" "r" ++ "\n\n"
        ++ "Error reading file: " ++ "io" ++ "\n\n" ∧
    ((sortStrings ["r/a.py", "r/bad.py"]).map
        (renderFileSection
          (fun q => if q = "r/bad.py" then Except.error "io" else Except.ok "text")
          "r" "py")).length = 2 ∧
    renderFileSection (fun _ => Except.ok "text") "r" "py" "r/a.py"
      = renderFileSection
          (fun q => if q = "r/bad.py" then Except.error "io" else Except.ok "text")
          "r" "py" "r/a.py" := by
  have h := claim_c8
    (fun q => if q = "r/bad.py" then Except.error "io" else Except.ok "text")
    (fun _ => Except.ok "text") "r" "py" "r/bad.py" "io" ["r/a.py", "r/bad.py"]
    (by decide) rfl (fun q hne => (if_neg hne).symm)
  exact ⟨h.1, h.2.2.1, h.2.2.2 "r/a.py" (by decide) (by decide)⟩

/-- The path of the directory reached from `path` through the components
`cs`, joined with the separator. -/
def joinChain (path : String) (cs : List String) : String :=
  cs.foldl (fun acc c => acc ++ "/" ++ c) path

/-- Every entry of a pruned walk whose root is not itself excluded has a
non-excluded name and is reached from the walk root through non-excluded
components only. -/
theorem walkTree_entries_avoid (excl : List String) :
    ∀ t : FSTree, t.nodeName ∉ excl →
      ∀ path depth, ∀ e ∈ walkTree excl path depth t,
        e.nm ∉ excl ∧ ∃ cs : List String,
          e.path = joinChain path cs ∧ ∀ c ∈ cs, c ∉ excl := by
  intro t
  induction t using FSTree.inductionOn with
  | h nm fls subs ih =>
    intro hroot path depth e he
    have hunfold : walkTree excl path depth (FSTree.node nm fls subs)
        = ⟨path, nm, depth, fls⟩ :: walkSubs excl path depth subs := rfl
    rw [hunfold] at he
    rcases List.mem_cons.mp he with rfl | he'
    · exact ⟨by simpa [FSTree.nodeName] using hroot, [], rfl, by simp⟩
    · rw [walkSubs_eq_flatMap, List.mem_flatMap] at he'
      obtain ⟨s, hs, hes⟩ := he'
      by_cases hmem : s.nodeName ∈ excl
      · rw [if_pos hmem] at hes
        simp at hes
      · rw [if_neg hmem] at hes
        obtain ⟨hnm, cs, hpath, hcs⟩ :=
          ih s hs hmem (path ++ "/" ++ s.nodeName) (depth + 1) e hes
        refine ⟨hnm, s.nodeName :: cs, ?_, ?_⟩
        · rw [hpath]; rfl
        · intro c hc
          rcases List.mem_cons.mp hc with rfl | hc'
          · exact hmem
          · exact hcs c hc'

/-- Counterexample to C2 as stated: the walk root itself is never pruned,
so a directory named `.venv` sitting at depth zero (the root of the walk)
is walked, listed, and its file `x.py` is collected as a target even
though `.venv` is in the resolved excluded-directories collection for
extension `py`. -/
theorem claim_c2_counterexample :
    ((get_file_config "py" none).map (fun cfg =>
        decide (".venv" ∈ cfg.exclude_dirs)
          && decide ((collect_files
              (PathEntry.dir (FSTree.node ".venv" ["x.py"] []))
              "/p/.venv" "py" cfg).1 = ["/p/.venv/x.py"])))
      = some true := by
  decide

/-- Claim C2 (amended): provided the root directory's own name is not in
the excluded-directories collection (`os.walk` always yields its root),
every directory entry of the pruned walk - hence every directory line of
the tree listing - has a non-excluded name, every walked directory is
reached from the root through non-excluded components only (an excluded
directory is never descended into at any depth below the root), and every
collected target or infrastructure file lies directly inside a walked
directory, so no file beneath an excluded directory is collected. -/
theorem claim_c2_amended (t : FSTree) (directory target_extension : String)
    (cfg : FileConfig) (hroot : t.nodeName ∉ cfg.exclude_dirs) :
    (∀ e ∈ walkPath (PathEntry.dir t) directory cfg.exclude_dirs,
      e.nm ∉ cfg.exclude_dirs) ∧
    (∀ e ∈ walkPath (PathEntry.dir t) directory cfg.exclude_dirs,
      ∃ cs : List String, e.path = joinChain directory cs ∧
        ∀ c ∈ cs, c ∉ cfg.exclude_dirs) ∧
    (∀ x ∈ (collect_files (PathEntry.dir t) directory target_extension cfg).1
        ++ (collect_files (PathEntry.dir t) directory target_extension cfg).2,
      ∃ e ∈ walkPath (PathEntry.dir t) directory cfg.exclude_dirs,
        ∃ f ∈ e.fls, x = joinPath e.path f) := by
  refine ⟨?_, ?_, ?_⟩
  · intro e he
    exact (walkTree_entries_avoid cfg.exclude_dirs t hroot directory 0 e he).1
  · intro e he
    exact (walkTree_entries_avoid cfg.exclude_dirs t hroot directory 0 e he).2
  · intro x hx
    rcases List.mem_append.mp hx with hx' | hx' <;>
    · simp only [collect_files, List.mem_map] at hx'
      obtain ⟨pf, hpf, hjoin⟩ := hx'
      rw [List.mem_filter] at hpf
      obtain ⟨e, he, hpath, hfe, _⟩ := mem_includedPairs.mp hpf.1
      exact ⟨e, he, pf.2, hfe, by rw [← hjoin, ← hpath]⟩

/-- Witness for the amended C2: a root `proj` with an excluded `.venv`
subdirectory; the walk consists of the root entry alone, whose name is not
excluded. -/
theorem claim_c2_amended_witness :
    walkPath (PathEntry.dir
        (FSTree.node "proj" ["a.py"] [FSTree.node ".venv" ["x.py"] []]))
        "r" [".venv"]
      = [⟨"r", "proj", 0, ["a.py"]⟩] ∧
    (⟨"r", "proj", 0, ["a.py"]⟩ : WalkEntry).nm ∉ ([".venv"] : List String) := by
  have h := claim_c2_amended
    (FSTree.node "proj" ["a.py"] [FSTree.node ".venv" ["x.py"] []])
    "r" "py" ⟨[".venv"], [], [], []⟩ (by decide)
  exact ⟨by decide, h.1 ⟨"r", "proj", 0, ["a.py"]⟩ (by decide)⟩

/-- Two enumerations of the same tree (equal canonical forms) collect
permutations of the same target list and of the same infrastructure list. -/
theorem collect_files_perm_of_canon_eq {t₁ t₂ : FSTree}
    (h : canonTree t₁ = canonTree t₂) (directory target_extension : String)
    (cfg : FileConfig) :
    ((collect_files (PathEntry.dir t₁) directory target_extension cfg).1.Perm
      (collect_files (PathEntry.dir t₂) directory target_extension cfg).1) ∧
    ((collect_files (PathEntry.dir t₁) directory target_extension cfg).2.Perm
      (collect_files (PathEntry.dir t₂) directory target_extension cfg).2) := by
  have hpairs : (includedPairs (walkTree cfg.exclude_dirs directory 0 t₁)
      target_extension cfg).Perm
      (includedPairs (walkTree cfg.exclude_dirs directory 0 t₂)
        target_extension cfg) := by
    have h1 := includedPairs_canon cfg.exclude_dirs target_extension cfg
      t₁ directory 0
    have h2 := includedPairs_canon cfg.exclude_dirs target_extension cfg
      t₂ directory 0
    rw [h] at h1
    exact h1.symm.trans h2
  constructor <;>
  · simp only [collect_files]
    exact (hpairs.filter _).map _

/-- Claim C3 (amended): across any two runs on the same unchanged tree -
two enumeration orders of it, i.e. two trees with the same canonical
form - the rendered Code section is byte-identical and the two Metadata
counts agree; the directory lines of the Metadata tree listing, however,
follow the traversal order, which the recorded counterexample shows can
differ between such runs. -/
theorem claim_c3_amended (contents : String → Except String String)
    (directory target_extension : String) (cfg : FileConfig) (t₁ t₂ : FSTree)
    (h : canonTree t₁ = canonTree t₂) :
    generate_code_section contents directory
        ((collect_files (PathEntry.dir t₁) directory target_extension cfg).1
          ++ (collect_files (PathEntry.dir t₁) directory target_extension cfg).2)
        target_extension
      = generate_code_section contents directory
          ((collect_files (PathEntry.dir t₂) directory target_extension cfg).1
            ++ (collect_files (PathEntry.dir t₂) directory target_extension cfg).2)
          target_extension ∧
    (collect_files (PathEntry.dir t₁) directory target_extension cfg).1.length
      = (collect_files (PathEntry.dir t₂) directory target_extension cfg).1.length ∧
    (collect_files (PathEntry.dir t₁) directory target_extension cfg).2.length
      = (collect_files (PathEntry.dir t₂) directory target_extension cfg).2.length := by
  obtain ⟨hp1, hp2⟩ :=
    collect_files_perm_of_canon_eq h directory target_extension cfg
  refine ⟨?_, hp1.length_eq, hp2.length_eq⟩
  unfold generate_code_section
  rw [sortStrings_eq_of_perm (hp1.append hp2)]

/-- Counterexample to C3 as stated: two enumeration orders of the same
tree (`r` with empty subdirectories `a` and `b`; equal canonical forms)
render different Metadata sections, because the tree listing emits
directory lines in traversal order. -/
theorem claim_c3_counterexample :
    canonTree (FSTree.node "r" []
        [FSTree.node "a" [] [], FSTree.node "b" [] []])
      = canonTree (FSTree.node "r" []
          [FSTree.node "b" [] [], FSTree.node "a" [] []]) ∧
    generate_metadata_section
        (PathEntry.dir (FSTree.node "r" []
          [FSTree.node "a" [] [], FSTree.node "b" [] []]))
        "r" [] [] "py" ⟨[], [], [], []⟩
      ≠ generate_metadata_section
          (PathEntry.dir (FSTree.node "r" []
            [FSTree.node "b" [] [], FSTree.node "a" [] []]))
          "r" [] [] "py" ⟨[], [], [], []⟩ := by
  exact ⟨rfl, by decide⟩

/-- Witness for the amended C3: two enumerations of one directory holding
`a.py` and `b.py` produce the same Code section. -/
theorem claim_c3_amended_witness :
    generate_code_section (fun _ => Except.ok "c") "r"
        ((collect_files (PathEntry.dir (FSTree.node "r" ["b.py", "a.py"] []))
            "r" "py" ⟨[], [], [], []⟩).1
          ++ (collect_files (PathEntry.dir (FSTree.node "r" ["b.py", "a.py"] []))
              "r" "py" ⟨[], [], [], []⟩).2) "py"
      = generate_code_section (fun _ => Except.ok "c") "r"
          ((collect_files (PathEntry.dir (FSTree.node "r" ["a.py", "b.py"] []))
              "r" "py" ⟨[], [], [], []⟩).1
            ++ (collect_files (PathEntry.dir (FSTree.node "r" ["a.py", "b.py"] []))
                "r" "py" ⟨[], [], [], []⟩).2) "py" :=
  (claim_c3_amended (fun _ => Except.ok "c") "r" "py" ⟨[], [], [], []⟩
    (FSTree.node "r" ["b.py", "a.py"] [])
    (FSTree.node "r" ["a.py", "b.py"] []) rfl).1
